import Mathlib

/-!
Verification development for a prediction-market arbitrage bot.

The Python sources are shallowly embedded over `ℚ`:
  * `src/math_engine.py` — `analyze_market`, `kelly_position`, `should_execute`;
  * `src/bot.py` — the `BotState` risk state machine (`can_trade`,
    `record_trade`, `trades_in_last_hour`) and the per-cycle
    rank/attempt loop of `scan_and_execute`.

Python float literals are read as the rationals they denote in the source
text (`0.05 = 1/20`, `0.99 = 99/100`, ...).  `numpy.log` is modelled by an
abstract parameter `rlog : ℚ → ℚ`; the only fact any theorem assumes about
it is `rlog 1 = 0`, which holds for the real logarithm.  Timestamps are
rationals counting seconds, so "one hour ago" is `now - 3600`.  Reason
strings are modelled by small inductive types that keep the data
interpolated into the corresponding f-strings.
-/

namespace Poly2

/-! ## `src/math_engine.py` -/

/-- Opportunity classification tags produced by the engine
(`'buy_all_yes'`, `'buy_all_no'`; `'sell_all_yes'` is listed in the
`Opportunity` dataclass comment but never produced by `analyze_market`). -/
inductive OppType where
  | buy_all_yes
  | buy_all_no
  | sell_all_yes

/-- The analysis dict returned by `analyze_market` (src/math_engine.py
lines 82–92). -/
structure Analysis where
  n : ℕ
  yes_sum : ℚ
  deviation : ℚ
  atype : OppType
  raw_profit : ℚ
  bregman_D : ℚ
  fw_gap : ℚ
  guaranteed_profit : ℚ
  alpha_captured : ℚ

/-- The local `safe` of `analyze_market` (line 64): prices clamped to a
floor of 0.005. -/
def safePrices (prices : List ℚ) : List ℚ :=
  prices.map fun p => max p (1/200)

/-- The local `s` of `analyze_market` (line 65): sum of the clamped
prices. -/
def safeSum (prices : List ℚ) : ℚ :=
  (safePrices prices).sum

/-- The local `proj` of `analyze_market` (line 66): clamped prices
renormalised onto the simplex. -/
def projDist (prices : List ℚ) : List ℚ :=
  (safePrices prices).map fun p => p / safeSum prices

/-- The local `p_norm` of `analyze_market` (line 69) — constructed by the
very same formula as `proj`. -/
def pNorm (prices : List ℚ) : List ℚ :=
  (safePrices prices).map fun p => p / safeSum prices

/-- The local `D` of `analyze_market` (lines 70–71): the KL divergence
between `proj` and `p_norm` (the latter floored at 1e-15), absolute
value taken. -/
def bregmanD (rlog : ℚ → ℚ) (prices : List ℚ) : ℚ :=
  |(List.zipWith (fun pr pn => pr * rlog (pr / max pn (1/1000000000000000)))
      (projDist prices) (pNorm prices)).sum|

/-- The local `grad` of `analyze_market` (line 74). -/
def gradVec (rlog : ℚ → ℚ) (prices : List ℚ) : List ℚ :=
  (projDist prices).map fun p => rlog (max p (1/1000000000000000)) + 1

/-- The locals `min_g`, `vertex`, `gap` of `analyze_market`
(lines 75–77): Frank–Wolfe gap estimate, absolute value taken. -/
def fwGap (rlog : ℚ → ℚ) (prices : List ℚ) : ℚ :=
  let grad := gradVec rlog prices
  let min_g := grad.min?.getD 0
  let vertex := grad.map fun g => if g = min_g then (1 : ℚ) else 0
  |(List.zipWith (fun g d => g * d) grad
      (List.zipWith (fun a b => a - b) (projDist prices) vertex)).sum|

/-- The analysis dict built in `analyze_market` (lines 63–92) once the
type and raw profit have been determined:  `guaranteed = max(0, D - gap)`,
`alpha = min((D-gap)/D, 1) if D > 1e-6 else 0`. -/
def mkAnalysis (rlog : ℚ → ℚ) (prices : List ℚ) (yes_sum deviation : ℚ)
    (t : OppType) (raw : ℚ) : Analysis :=
  let D := bregmanD rlog prices
  let gap := fwGap rlog prices
  ⟨prices.length, yes_sum, deviation, t, raw, D, gap, max 0 (D - gap),
    if D > 1/1000000 then min ((D - gap) / D) 1 else 0⟩

/-- Source function `analyze_market` (src/math_engine.py lines 36–92): fast single-market
arbitrage check.  Returns `none` when there is no opportunity. -/
def analyze_market (rlog : ℚ → ℚ) (prices : List ℚ) : Option Analysis :=
  if prices.length < 2 then none
  else
    let yes_sum := prices.sum
    let deviation := |yes_sum - 1|
    if deviation < 1/100 then none
    else if yes_sum < 99/100 then
      some (mkAnalysis rlog prices yes_sum deviation .buy_all_yes (1 - yes_sum))
    else if yes_sum > 101/100 then
      some (mkAnalysis rlog prices yes_sum deviation .buy_all_no (yes_sum - 1))
    else none

/-- Source function `kelly_position` (src/math_engine.py lines 95–129): modified Kelly
sizing.  Defaults in the source: `exec_prob = 0.95`, `max_frac = 0.10`. -/
def kelly_position (profit_pct bankroll exec_prob max_frac : ℚ) : ℚ :=
  if profit_pct ≤ 0 ∨ exec_prob ≤ 0 then 0
  else
    let loss_on_fail : ℚ := 1/20
    let ev_per_dollar := exec_prob * profit_pct - (1 - exec_prob) * loss_on_fail
    if ev_per_dollar ≤ 0 then 0
    else
      let f := ev_per_dollar / profit_pct
      let f := f * (1/2)
      let f := max f 0
      let position := f * bankroll
      min position (max_frac * bankroll)

/-- Structured counterpart of the reason strings produced by
`should_execute`. -/
inductive GateReason where
  | profitBelowMin (profit minp : ℚ)
  | sizeTooSmall (pos : ℚ)
  | gasTooLarge (share : ℚ)
  | accepted (net : ℚ)

/-- The decision dict returned by `should_execute`. -/
structure ExecDecision where
  execute : Bool
  reason : GateReason
  position_size : ℚ
  expected_profit : ℚ

/-- Source function `should_execute` (src/math_engine.py lines 132–170): full
pre-execution check.  Only the `'raw_profit'` key of the opportunity dict
is consulted.  The call to `kelly_position` passes the source default
`exec_prob = 0.95`. -/
def should_execute (opp : Analysis) (bankroll min_profit gas_cost max_position_pct : ℚ) :
    ExecDecision :=
  let profit := opp.raw_profit
  if profit < min_profit then
    ⟨false, .profitBelowMin profit min_profit, 0, 0⟩
  else
    let position := kelly_position profit bankroll (19/20) max_position_pct
    if position < 1 then
      ⟨false, .sizeTooSmall position, 0, 0⟩
    else
      let expected_profit := position * profit
      if gas_cost / expected_profit > 3/10 then
        ⟨false, .gasTooLarge (gas_cost / expected_profit), 0, 0⟩
      else
        ⟨true, .accepted (expected_profit - gas_cost), position, expected_profit - gas_cost⟩

/-! ## `src/bot.py` — the event-level classification of `scan_and_execute` -/

/-- Outcome of the price-sum screening a grouped event undergoes in
`scan_and_execute` (src/bot.py lines 344–369) before the math engine is
invoked. -/
inductive EventDecision where
  | skipSmallDev
  | dataQualityReject
  | skipNoTokens
  | skipMid
  | classified (t : OppType) (raw_profit : ℚ)

/-- The screening and classification applied to a grouped event's YES
prices in `scan_and_execute` (src/bot.py lines 344–369): skip when the
deviation is under one cent; skip as suspicious ("data-quality
rejection") when the sum is above 1.50 or below 0.50; otherwise classify
exactly as the math engine does, requiring NO-token availability for the
`buy_all_no` side. -/
def event_classify (yes_prices : List ℚ) (has_no_tokens : Bool) : EventDecision :=
  let yes_sum := yes_prices.sum
  let deviation := |yes_sum - 1|
  if deviation < 1/100 then .skipSmallDev
  else if yes_sum > 3/2 ∨ yes_sum < 1/2 then .dataQualityReject
  else if yes_sum < 99/100 then .classified .buy_all_yes (1 - yes_sum)
  else if yes_sum > 101/100 then
    if has_no_tokens then .classified .buy_all_no (yes_sum - 1) else .skipNoTokens
  else .skipMid

/-! ## `src/bot.py` — the `BotState` risk state machine -/

/-- Structured counterpart of the reason strings stored and returned by
`BotState`: `haltedMsg r` renders as `"HALTED: {r}"`, `drawdownMsg dd
limit` as the drawdown-percentage message, `rateLimitMsg n maxn` as
`"Rate limit: n/maxn trades/hr"`, `lowBankroll` as
`"Bankroll below $10"`. -/
inductive Reason where
  | ok
  | blank
  | haltedMsg (stored : Reason)
  | drawdownMsg (dd limit : ℚ)
  | rateLimitMsg (n maxn : ℕ)
  | lowBankroll

/-- A trade-result dict as consumed by `BotState.record_trade`
(keys read via `result.get(...)`, defaulted when absent). -/
structure TradeResult where
  success : Bool
  expected_profit : ℚ
  total_cost : ℚ
  market : String
  ttype : String
  dry_run : Bool
  reason : String

/-- One entry of `BotState.trade_log` (src/bot.py lines 165–174). -/
structure TradeLogEntry where
  time : ℚ
  market : String
  ttype : String
  success : Bool
  profit : ℚ
  cost : ℚ
  dry_run : Bool
  reason : String

/-- The module-level configuration consulted by `BotState.can_trade`. -/
structure Config where
  MAX_TRADES_PER_HOUR : ℕ
  DRAWDOWN_LIMIT : ℚ

/-- Source class `BotState` (src/bot.py lines 78–98), restricted to the fields read or
written by `can_trade` / `record_trade`.  Timestamps are rational
seconds. -/
structure BotState where
  initial_bankroll : ℚ
  current_bankroll : ℚ
  total_trades : ℕ
  successful_trades : ℕ
  failed_trades : ℕ
  total_profit : ℚ
  total_loss : ℚ
  trades_this_hour : List ℚ
  halted : Bool
  halt_reason : Reason
  trade_log : List TradeLogEntry

/-- Source property `BotState.drawdown` (src/bot.py lines 106–110). -/
def BotState.drawdown (s : BotState) : ℚ :=
  if s.initial_bankroll = 0 then 0
  else (s.initial_bankroll - s.current_bankroll) / s.initial_bankroll

/-- Source property `BotState.trades_in_last_hour` (src/bot.py lines 112–116): drops
timestamps not strictly newer than one hour before `now` from
`self.trades_this_hour` (a mutation) and returns the count together with
the mutated state. -/
def BotState.trades_in_last_hour (s : BotState) (now : ℚ) : ℕ × BotState :=
  let s1 := { s with trades_this_hour := s.trades_this_hour.filter fun t => now - 3600 < t }
  (s1.trades_this_hour.length, s1)

/-- Source method `BotState.can_trade` (src/bot.py lines 128–146).  Returns the
`(allowed, reason)` pair together with the possibly mutated state. -/
def BotState.can_trade (s : BotState) (cfg : Config) (now : ℚ) : Bool × Reason × BotState :=
  if s.halted then (false, .haltedMsg s.halt_reason, s)
  else if cfg.DRAWDOWN_LIMIT ≤ s.drawdown then
    let r := Reason.drawdownMsg s.drawdown cfg.DRAWDOWN_LIMIT
    (false, r, { s with halted := true, halt_reason := r })
  else
    let p := s.trades_in_last_hour now
    if cfg.MAX_TRADES_PER_HOUR ≤ p.1 then
      (false, .rateLimitMsg p.1 cfg.MAX_TRADES_PER_HOUR, p.2)
    else if p.2.current_bankroll < 10 then
      (false, .lowBankroll, { p.2 with halted := true, halt_reason := .lowBankroll })
    else (true, .ok, p.2)

/-- Source method `BotState.record_trade` (src/bot.py lines 148–174). -/
def BotState.record_trade (s : BotState) (result : TradeResult) (now : ℚ) : BotState :=
  let s1 := { s with total_trades := s.total_trades + 1,
                     trades_this_hour := s.trades_this_hour ++ [now] }
  let s2 :=
    if result.success then
      { s1 with successful_trades := s1.successful_trades + 1,
                total_profit := s1.total_profit + max result.expected_profit 0,
                current_bankroll := s1.current_bankroll + result.expected_profit }
    else
      let loss := result.total_cost * (1/10)
      { s1 with failed_trades := s1.failed_trades + 1,
                total_loss := s1.total_loss + loss,
                current_bankroll := s1.current_bankroll - loss }
  { s2 with trade_log := s2.trade_log ++
      [⟨now, result.market, result.ttype, result.success, result.expected_profit,
        result.total_cost, result.dry_run, result.reason⟩] }

/-- The two operations through which the bot's main loop touches a
`BotState`: the admission check and the post-execution bookkeeping. -/
inductive BotOp where
  | checkTrade (now : ℚ)
  | recordOp (result : TradeResult) (now : ℚ)

/-- Apply one `BotOp` to the state, keeping only the state component. -/
def BotState.applyOp (s : BotState) (cfg : Config) : BotOp → BotState
  | .checkTrade now => (s.can_trade cfg now).2.2
  | .recordOp result now => s.record_trade result now

/-- Apply a sequence of `BotOp`s. -/
def BotState.applyOps (s : BotState) (cfg : Config) : List BotOp → BotState
  | [] => s
  | op :: ops => (s.applyOp cfg op).applyOps cfg ops

/-! ## `src/bot.py` — the per-cycle rank/attempt loop of `scan_and_execute` -/

/-- One entry of the `opportunities` list built by a scan cycle
(src/bot.py lines 408–413): the Gate's decision, plus the
`analysis['raw_profit']` sort key and the `analysis['type']` tag the
execution loop consults. -/
structure ScanOpp where
  exec_check : ExecDecision
  raw_profit : ℚ
  atype : OppType

/-- The ranking `opportunities.sort(key=..., reverse=True)` by
`x['analysis'].get('raw_profit', 0)` (src/bot.py lines 465–468):
Python's stable sort, in descending key order. -/
def rankOpportunities (opps : List ScanOpp) : List ScanOpp :=
  opps.mergeSort fun a b => b.raw_profit ≤ a.raw_profit

/-- The execution loop of `scan_and_execute` (src/bot.py lines 486–524)
over the ranked list: skip gate-rejected entries; at the first approved
entry ask `can_trade` — on denial stop the cycle (`break`), on success
dispatch exactly one execution (modelled by `execRes`), record it, and
stop (`break  # One trade per cycle`).  Returns the dispatched entries
(at most one) and the final state. -/
def executeCycle (cfg : Config) (now : ℚ) (execRes : ScanOpp → TradeResult) :
    BotState → List ScanOpp → List ScanOpp × BotState
  | st, [] => ([], st)
  | st, o :: rest =>
    if o.exec_check.execute = false then executeCycle cfg now execRes st rest
    else
      let c := st.can_trade cfg now
      if c.1 = false then ([], c.2.2)
      else
        match o.atype with
        | .buy_all_yes => ([o], c.2.2.record_trade (execRes o) now)
        | .buy_all_no => ([o], c.2.2.record_trade (execRes o) now)
        | .sell_all_yes => executeCycle cfg now execRes c.2.2 rest

/-! ## Concrete instances used by witnesses -/

/-- A gate-approved affirmative-basket scan entry with raw profit 0.10. -/
def oppA : ScanOpp := ⟨⟨true, .accepted 1, 50, 1⟩, 1/10, .buy_all_yes⟩

/-- A gate-rejected scan entry with raw profit 0.20. -/
def oppB : ScanOpp := ⟨⟨false, .sizeTooSmall 0, 0, 0⟩, 1/5, .buy_all_no⟩

/-- A second gate-approved entry with the same raw profit 0.10 as `oppA`. -/
def oppC : ScanOpp := ⟨⟨true, .accepted 2, 50, 2⟩, 1/10, .buy_all_no⟩

/-- A fresh, unhalted risk state with bankroll 500. -/
def stOk : BotState := ⟨500, 500, 0, 0, 0, 0, 0, [], false, .blank, []⟩

/-- The default configuration: 3 trades/hour, 15% drawdown limit. -/
def cfg0 : Config := ⟨3, 3/20⟩

/-- A successful trade result. -/
def res0 : TradeResult := ⟨true, 1, 50, "m", "buy_all_yes", false, "ok"⟩

/-! ## Theorems -/

/-! ### Helper lemmas about `kelly_position` -/

theorem kelly_of_nonpos_profit (p b e mf : ℚ) (hp : p ≤ 0) :
    kelly_position p b e mf = 0 := by
  simp [kelly_position, hp]

theorem kelly_nonneg (p b e mf : ℚ) (hb : 0 ≤ b) (hmf : 0 ≤ mf) :
    0 ≤ kelly_position p b e mf := by
  unfold kelly_position
  simp only []
  split_ifs with h1 h2
  · exact le_refl 0
  · exact le_refl 0
  · exact le_min (mul_nonneg (le_max_right _ 0) hb) (mul_nonneg hmf hb)

theorem kelly_le_cap (p b e mf : ℚ) (hb : 0 ≤ b) (hmf : 0 ≤ mf) :
    kelly_position p b e mf ≤ mf * b := by
  unfold kelly_position
  simp only []
  split_ifs with h1 h2
  · exact mul_nonneg hmf hb
  · exact mul_nonneg hmf hb
  · exact min_le_right _ _

theorem kelly_mono (b e mf p1 p2 : ℚ) (hb : 0 ≤ b) (he1 : e ≤ 1) (hmf : 0 ≤ mf)
    (hp1 : 0 < p1) (h12 : p1 ≤ p2) :
    kelly_position p1 b e mf ≤ kelly_position p2 b e mf := by
  have hp2 : 0 < p2 := lt_of_lt_of_le hp1 h12
  by_cases he : e ≤ 0
  · simp [kelly_position, he]
  · push_neg at he
    have hg1 : ¬ (p1 ≤ 0 ∨ e ≤ 0) := by push_neg; exact ⟨hp1, he⟩
    have hg2 : ¬ (p2 ≤ 0 ∨ e ≤ 0) := by push_neg; exact ⟨hp2, he⟩
    rw [kelly_position, if_neg hg1, kelly_position, if_neg hg2]
    simp only []
    set c : ℚ := (1 - e) * (1/20) with hc
    have hc0 : 0 ≤ c := mul_nonneg (by linarith) (by norm_num)
    by_cases hev1 : e * p1 - c ≤ 0
    · rw [if_pos hev1]
      split_ifs with hev2
      · exact le_refl 0
      · exact le_min (mul_nonneg (le_max_right _ 0) hb) (mul_nonneg hmf hb)
    · push_neg at hev1
      have hev2 : ¬ e * p2 - c ≤ 0 := by
        push_neg
        have : e * p1 ≤ e * p2 := mul_le_mul_of_nonneg_left h12 (le_of_lt he)
        linarith
      rw [if_neg (not_le.mpr hev1), if_neg hev2]
      apply min_le_min _ (le_refl _)
      apply mul_le_mul_of_nonneg_right _ hb
      apply max_le_max _ (le_refl 0)
      apply mul_le_mul_of_nonneg_right _ (by norm_num : (0:ℚ) ≤ 1/2)
      rw [div_le_div_iff₀ hp1 hp2]
      nlinarith [mul_nonneg hc0 (sub_nonneg.mpr h12)]

/-- C5: For every fixed bankroll ≥ 0, execution-success probability
(in [0,1]) and max exposure fraction (≥ 0), `kelly_position` is
monotonically non-decreasing in the profit rate, and for every profit
rate its output is non-negative and never exceeds
`max_frac * bankroll`. -/
theorem kelly_monotone_and_bounded (bankroll e mf p1 p2 : ℚ)
    (hb : 0 ≤ bankroll) (he0 : 0 ≤ e) (he1 : e ≤ 1) (hmf : 0 ≤ mf)
    (hp1 : 0 < p1) (h12 : p1 ≤ p2) :
    kelly_position p1 bankroll e mf ≤ kelly_position p2 bankroll e mf ∧
    ∀ p : ℚ, 0 ≤ kelly_position p bankroll e mf ∧
      kelly_position p bankroll e mf ≤ mf * bankroll :=
  ⟨kelly_mono _ _ _ _ _ hb he1 hmf hp1 h12,
   fun _ => ⟨kelly_nonneg _ _ _ _ hb hmf, kelly_le_cap _ _ _ _ hb hmf⟩⟩

/-- Witness for C5 at bankroll 500, `exec_prob` 0.95, `max_frac` 0.10,
profit rates 0.05 ≤ 0.10 (and 37 for the bound part). -/
theorem kelly_monotone_and_bounded_witness :
    kelly_position (1/20) 500 (19/20) (1/10) ≤ kelly_position (1/10) 500 (19/20) (1/10) ∧
    0 ≤ kelly_position 37 500 (19/20) (1/10) ∧
    kelly_position 37 500 (19/20) (1/10) ≤ (1/10) * 500 := by
  have h := kelly_monotone_and_bounded 500 (19/20) (1/10) (1/20) (1/10)
    (by norm_num) (by norm_num) (by norm_num) (by norm_num) (by norm_num) (by norm_num)
  exact ⟨h.1, (h.2 37).1, (h.2 37).2⟩

theorem should_execute_accept_eq (opp : Analysis) (bankroll min_profit gas_cost maxpct : ℚ)
    (h1 : ¬ opp.raw_profit < min_profit)
    (h2 : ¬ kelly_position opp.raw_profit bankroll (19/20) maxpct < 1)
    (h3 : ¬ gas_cost / (kelly_position opp.raw_profit bankroll (19/20) maxpct * opp.raw_profit) > 3/10) :
    should_execute opp bankroll min_profit gas_cost maxpct =
      ⟨true,
       .accepted (kelly_position opp.raw_profit bankroll (19/20) maxpct * opp.raw_profit - gas_cost),
       kelly_position opp.raw_profit bankroll (19/20) maxpct,
       kelly_position opp.raw_profit bankroll (19/20) maxpct * opp.raw_profit - gas_cost⟩ := by
  rw [should_execute]
  simp only []
  rw [if_neg h1, if_neg h2, if_neg h3]

theorem should_execute_checks_of_execute (opp : Analysis)
    (bankroll min_profit gas_cost maxpct : ℚ)
    (hex : (should_execute opp bankroll min_profit gas_cost maxpct).execute = true) :
    ¬ opp.raw_profit < min_profit ∧
    ¬ kelly_position opp.raw_profit bankroll (19/20) maxpct < 1 ∧
    ¬ gas_cost / (kelly_position opp.raw_profit bankroll (19/20) maxpct * opp.raw_profit) > 3/10 := by
  by_cases h1 : opp.raw_profit < min_profit
  · rw [should_execute] at hex; simp only [] at hex; rw [if_pos h1] at hex; simp at hex
  · by_cases h2 : kelly_position opp.raw_profit bankroll (19/20) maxpct < 1
    · rw [should_execute] at hex; simp only [] at hex; rw [if_neg h1, if_pos h2] at hex
      simp at hex
    · by_cases h3 : gas_cost /
          (kelly_position opp.raw_profit bankroll (19/20) maxpct * opp.raw_profit) > 3/10
      · rw [should_execute] at hex; simp only [] at hex
        rw [if_neg h1, if_neg h2, if_pos h3] at hex; simp at hex
      · exact ⟨h1, h2, h3⟩

/-- C3: the Gate never accepts with a position below $1 or a
non-positive net profit; on acceptance the returned expected profit is
`position * raw_profit - gas_cost`, strictly positive because
acceptance requires `gas_cost` ≤ 30% of the gross expected profit. -/
theorem gate_sound (opp : Analysis) (bankroll min_profit gas_cost maxpct : ℚ)
    (hgas : 0 ≤ gas_cost)
    (hex : (should_execute opp bankroll min_profit gas_cost maxpct).execute = true) :
    1 ≤ (should_execute opp bankroll min_profit gas_cost maxpct).position_size ∧
    0 < (should_execute opp bankroll min_profit gas_cost maxpct).expected_profit ∧
    (should_execute opp bankroll min_profit gas_cost maxpct).expected_profit =
      (should_execute opp bankroll min_profit gas_cost maxpct).position_size * opp.raw_profit
        - gas_cost ∧
    gas_cost ≤ (3/10) *
      ((should_execute opp bankroll min_profit gas_cost maxpct).position_size * opp.raw_profit) := by
  obtain ⟨h1, h2, h3⟩ := should_execute_checks_of_execute opp bankroll min_profit gas_cost maxpct hex
  rw [should_execute_accept_eq opp bankroll min_profit gas_cost maxpct h1 h2 h3]
  push_neg at h2 h3
  have hppos : 0 < opp.raw_profit := by
    by_contra hp
    push_neg at hp
    rw [kelly_of_nonpos_profit _ _ _ _ hp] at h2
    norm_num at h2
  have hgross : 0 < kelly_position opp.raw_profit bankroll (19/20) maxpct * opp.raw_profit :=
    mul_pos (lt_of_lt_of_le one_pos h2) hppos
  rw [div_le_iff₀ hgross] at h3
  exact ⟨h2, by dsimp only; linarith, rfl, by dsimp only; linarith⟩

/-- Witness for C3 at Scenario C inputs (raw profit 0.10, bankroll 500,
min profit 0.01, gas 0.005, max fraction 0.10). -/
theorem gate_sound_witness :
    1 ≤ (should_execute ⟨3, 9/10, 1/10, .buy_all_yes, 1/10, 0, 0, 1/10, 1⟩
          500 (1/100) (1/200) (1/10)).position_size ∧
    0 < (should_execute ⟨3, 9/10, 1/10, .buy_all_yes, 1/10, 0, 0, 1/10, 1⟩
          500 (1/100) (1/200) (1/10)).expected_profit ∧
    (should_execute ⟨3, 9/10, 1/10, .buy_all_yes, 1/10, 0, 0, 1/10, 1⟩
          500 (1/100) (1/200) (1/10)).expected_profit =
      (should_execute ⟨3, 9/10, 1/10, .buy_all_yes, 1/10, 0, 0, 1/10, 1⟩
          500 (1/100) (1/200) (1/10)).position_size * (1/10) - 1/200 ∧
    (1/200 : ℚ) ≤ (3/10) *
      ((should_execute ⟨3, 9/10, 1/10, .buy_all_yes, 1/10, 0, 0, 1/10, 1⟩
          500 (1/100) (1/200) (1/10)).position_size * (1/10)) :=
  gate_sound ⟨3, 9/10, 1/10, .buy_all_yes, 1/10, 0, 0, 1/10, 1⟩ 500 (1/100) (1/200) (1/10)
    (by norm_num) (by norm_num [should_execute, kelly_position])

/-- C8, Scenario C: profit rate 0.10 and bankroll 500 give the capped
position $50 (the uncapped Kelly position 231.25 exceeds the 10% cap),
and the Gate accepts with net profit 50·0.10 − 0.005 = $4.995. -/
theorem scenario_c :
    kelly_position (1/10) 500 (19/20) (1/10) = 50 ∧
    ((19/20) * (1/10) - (1 - 19/20) * (1/20)) / (1/10) * (1/2) * 500 = (925/4 : ℚ) ∧
    (1/10 : ℚ) * 500 < 925/4 ∧
    should_execute ⟨3, 9/10, 1/10, .buy_all_yes, 1/10, 0, 0, 1/10, 1⟩ 500 (1/100) (1/200) (1/10)
      = ⟨true, .accepted (999/200), 50, 999/200⟩ := by
  refine ⟨by norm_num [kelly_position], by norm_num, by norm_num, ?_⟩
  norm_num [should_execute, kelly_position]

/-- C10: if control reaches the gas-cost check (checks 1 and 2 passed),
the denominator `position * raw_profit` of `gas_cost / expected_profit`
is strictly positive; in particular a non-positive profit rate always
makes the Sizer return 0, which check 2 rejects. -/
theorem gas_check_denominator_pos (opp : Analysis) (bankroll min_profit maxpct : ℚ)
    (h1 : ¬ opp.raw_profit < min_profit)
    (h2 : ¬ kelly_position opp.raw_profit bankroll (19/20) maxpct < 1) :
    (∀ q b mf : ℚ, q ≤ 0 → kelly_position q b (19/20) mf = 0) ∧
    0 < opp.raw_profit ∧
    0 < kelly_position opp.raw_profit bankroll (19/20) maxpct * opp.raw_profit := by
  push_neg at h2
  have hppos : 0 < opp.raw_profit := by
    by_contra hp
    push_neg at hp
    rw [kelly_of_nonpos_profit _ _ _ _ hp] at h2
    norm_num at h2
  exact ⟨fun q b mf hq => kelly_of_nonpos_profit q b (19/20) mf hq,
    hppos, mul_pos (lt_of_lt_of_le one_pos h2) hppos⟩

/-- Witness for C10 at Scenario C inputs. -/
theorem gas_check_denominator_pos_witness :
    kelly_position (-1) 7 (19/20) (1/10) = 0 ∧
    0 < (1/10 : ℚ) ∧
    0 < kelly_position (1/10) 500 (19/20) (1/10) * (1/10) := by
  have h := gas_check_denominator_pos ⟨3, 9/10, 1/10, .buy_all_yes, 1/10, 0, 0, 1/10, 1⟩
    500 (1/100) (1/10) (by norm_num) (by norm_num [kelly_position])
  exact ⟨h.1 (-1) 7 (1/10) (by norm_num), h.2.1, h.2.2⟩

theorem record_trade_preserves_halt (s : BotState) (r : TradeResult) (now : ℚ) :
    (s.record_trade r now).halted = s.halted ∧
    (s.record_trade r now).halt_reason = s.halt_reason := by
  rw [BotState.record_trade]
  by_cases hr : r.success <;> simp [hr]

theorem applyOp_preserves_halt (s : BotState) (cfg : Config) (op : BotOp)
    (hh : s.halted = true) :
    (s.applyOp cfg op).halted = true ∧ (s.applyOp cfg op).halt_reason = s.halt_reason := by
  cases op with
  | checkTrade now => simp [BotState.applyOp, BotState.can_trade, hh]
  | recordOp r now =>
      have h := record_trade_preserves_halt s r now
      exact ⟨h.1.trans hh, h.2⟩

theorem applyOps_preserves_halt (cfg : Config) (ops : List BotOp) :
    ∀ s : BotState, s.halted = true →
      (s.applyOps cfg ops).halted = true ∧ (s.applyOps cfg ops).halt_reason = s.halt_reason := by
  induction ops with
  | nil => intro s hh; exact ⟨hh, rfl⟩
  | cons op ops ih =>
      intro s hh
      have h1 := applyOp_preserves_halt s cfg op hh
      have h2 := ih (s.applyOp cfg op) h1.1
      exact ⟨h2.1, h2.2.trans h1.2⟩

/-- C1: once `halted` is set, it stays set across any sequence of
`can_trade` / `record_trade` operations, the stored halt reason is
never changed, and every later `can_trade` denies with
`"HALTED: {halt_reason}"`. -/
theorem halted_is_sticky (cfg : Config) (s : BotState) (ops : List BotOp) (now : ℚ)
    (hh : s.halted = true) :
    (s.applyOps cfg ops).halted = true ∧
    (s.applyOps cfg ops).halt_reason = s.halt_reason ∧
    ((s.applyOps cfg ops).can_trade cfg now).1 = false ∧
    ((s.applyOps cfg ops).can_trade cfg now).2.1 = .haltedMsg s.halt_reason ∧
    ((s.applyOps cfg ops).can_trade cfg now).2.2.halted = true := by
  obtain ⟨h1, h2⟩ := applyOps_preserves_halt cfg ops s hh
  refine ⟨h1, h2, ?_, ?_, ?_⟩ <;> simp [BotState.can_trade, h1, h2]

/-- Witness for C1: a halted state stays halted and is denied across a
concrete operation sequence. -/
theorem halted_is_sticky_witness :
    ((⟨500, 400, 1, 0, 1, 0, 10, [50], true, .lowBankroll, []⟩ : BotState).applyOps ⟨3, 3/20⟩
      [.checkTrade 60, .recordOp ⟨false, 0, 20, "m", "t", false, "r"⟩ 70]).halted = true ∧
    ((⟨500, 400, 1, 0, 1, 0, 10, [50], true, .lowBankroll, []⟩ : BotState).applyOps ⟨3, 3/20⟩
      [.checkTrade 60, .recordOp ⟨false, 0, 20, "m", "t", false, "r"⟩ 70]).halt_reason
        = .lowBankroll ∧
    (((⟨500, 400, 1, 0, 1, 0, 10, [50], true, .lowBankroll, []⟩ : BotState).applyOps ⟨3, 3/20⟩
      [.checkTrade 60, .recordOp ⟨false, 0, 20, "m", "t", false, "r"⟩ 70]).can_trade ⟨3, 3/20⟩
        100).1 = false ∧
    (((⟨500, 400, 1, 0, 1, 0, 10, [50], true, .lowBankroll, []⟩ : BotState).applyOps ⟨3, 3/20⟩
      [.checkTrade 60, .recordOp ⟨false, 0, 20, "m", "t", false, "r"⟩ 70]).can_trade ⟨3, 3/20⟩
        100).2.1 = .haltedMsg .lowBankroll ∧
    (((⟨500, 400, 1, 0, 1, 0, 10, [50], true, .lowBankroll, []⟩ : BotState).applyOps ⟨3, 3/20⟩
      [.checkTrade 60, .recordOp ⟨false, 0, 20, "m", "t", false, "r"⟩ 70]).can_trade ⟨3, 3/20⟩
        100).2.2.halted = true :=
  halted_is_sticky ⟨3, 3/20⟩ ⟨500, 400, 1, 0, 1, 0, 10, [50], true, .lowBankroll, []⟩
    [.checkTrade 60, .recordOp ⟨false, 0, 20, "m", "t", false, "r"⟩ 70] 100 rfl

/-- C4 counterexample: on a "successful" trade whose realized profit is
negative (−$5), `record_trade` adds the raw profit to the bankroll
(500 → 495), not the non-negative-clamped profit (which would leave the
bankroll at 500 = 500 + max(−5,0)). -/
theorem record_trade_clamp_counterexample :
    ((⟨500, 500, 0, 0, 0, 0, 0, [], false, .blank, []⟩ : BotState).record_trade
        ⟨true, -5, 0, "m", "t", false, "r"⟩ 0).current_bankroll = 495 ∧
    ¬ (((⟨500, 500, 0, 0, 0, 0, 0, [], false, .blank, []⟩ : BotState).record_trade
        ⟨true, -5, 0, "m", "t", false, "r"⟩ 0).current_bankroll = 500 + max (-5 : ℚ) 0) := by
  norm_num [BotState.record_trade]

/-- C4 (amended): `record_trade` increments the total-trade counter,
appends one timestamp and one log entry; on success it increments the
success counter, adds the non-negative-clamped profit to cumulative
profit and the raw (unclamped) profit to the bankroll; on failure it
increments the failure counter and books a loss of exactly 10% of the
attempted total cost against cumulative loss and the bankroll. -/
theorem record_trade_spec (s : BotState) (r : TradeResult) (now : ℚ) :
    (s.record_trade r now).total_trades = s.total_trades + 1 ∧
    (s.record_trade r now).trades_this_hour = s.trades_this_hour ++ [now] ∧
    (s.record_trade r now).trade_log = s.trade_log ++
      [⟨now, r.market, r.ttype, r.success, r.expected_profit, r.total_cost,
        r.dry_run, r.reason⟩] ∧
    (s.record_trade r now).successful_trades =
      (if r.success then s.successful_trades + 1 else s.successful_trades) ∧
    (s.record_trade r now).failed_trades =
      (if r.success then s.failed_trades else s.failed_trades + 1) ∧
    (s.record_trade r now).total_profit =
      (if r.success then s.total_profit + max r.expected_profit 0 else s.total_profit) ∧
    (s.record_trade r now).total_loss =
      (if r.success then s.total_loss else s.total_loss + r.total_cost * (1/10)) ∧
    (s.record_trade r now).current_bankroll =
      (if r.success then s.current_bankroll + r.expected_profit
       else s.current_bankroll - r.total_cost * (1/10)) := by
  rw [BotState.record_trade]
  by_cases hr : r.success <;> simp [hr]

/-- C7: when the state is not halted and drawdown is below the limit but
the rolling-hour count — exactly the recorded timestamps strictly newer
than `now − 3600` — meets the per-hour cap, `can_trade` denies with the
rate-limit reason and leaves `halted` false (a throttle, not a halt). -/
theorem can_trade_rate_limited (s : BotState) (cfg : Config) (now : ℚ)
    (hh : s.halted = false)
    (hd : s.drawdown < cfg.DRAWDOWN_LIMIT)
    (hr : cfg.MAX_TRADES_PER_HOUR ≤
      (s.trades_this_hour.filter fun t => now - 3600 < t).length) :
    (s.can_trade cfg now).1 = false ∧
    (s.can_trade cfg now).2.1 =
      .rateLimitMsg ((s.trades_this_hour.filter fun t => now - 3600 < t).length)
        cfg.MAX_TRADES_PER_HOUR ∧
    (s.can_trade cfg now).2.2.halted = false ∧
    (s.can_trade cfg now).2.2.trades_this_hour =
      s.trades_this_hour.filter (fun t => now - 3600 < t) ∧
    ∀ t : ℚ, t ∈ (s.can_trade cfg now).2.2.trades_this_hour ↔
      t ∈ s.trades_this_hour ∧ now - 3600 < t := by
  rw [BotState.can_trade]
  rw [if_neg (by simp [hh]), if_neg (not_le.mpr hd)]
  simp only [BotState.trades_in_last_hour]
  rw [if_pos hr]
  refine ⟨rfl, rfl, hh, rfl, ?_⟩
  intro t
  simp [List.mem_filter]

/-- Witness for C7: three timestamps inside the rolling hour against a
cap of 3 trades/hour. -/
theorem can_trade_rate_limited_witness :
    ((⟨500, 500, 3, 3, 0, 0, 0, [100, 200, 300], false, .blank, []⟩ : BotState).can_trade
        ⟨3, 3/20⟩ 1000).1 = false ∧
    ((⟨500, 500, 3, 3, 0, 0, 0, [100, 200, 300], false, .blank, []⟩ : BotState).can_trade
        ⟨3, 3/20⟩ 1000).2.1 =
      .rateLimitMsg (([100, 200, 300].filter fun t => (1000:ℚ) - 3600 < t).length) 3 ∧
    ((⟨500, 500, 3, 3, 0, 0, 0, [100, 200, 300], false, .blank, []⟩ : BotState).can_trade
        ⟨3, 3/20⟩ 1000).2.2.halted = false ∧
    ((200:ℚ) ∈ ((⟨500, 500, 3, 3, 0, 0, 0, [100, 200, 300], false, .blank, []⟩ :
        BotState).can_trade ⟨3, 3/20⟩ 1000).2.2.trades_this_hour ↔
      (200:ℚ) ∈ ([100, 200, 300] : List ℚ) ∧ (1000:ℚ) - 3600 < 200) := by
  have h := can_trade_rate_limited ⟨500, 500, 3, 3, 0, 0, 0, [100, 200, 300], false, .blank, []⟩
    ⟨3, 3/20⟩ 1000 rfl (by norm_num [BotState.drawdown]) (by norm_num [List.filter])
  exact ⟨h.1, h.2.1, h.2.2.1, h.2.2.2.2 200⟩

/-! ### The Analyzer's classification (C2) -/

theorem mkAnalysis_atype (rlog : ℚ → ℚ) (prices : List ℚ) (ys dv : ℚ)
    (t : OppType) (raw : ℚ) : (mkAnalysis rlog prices ys dv t raw).atype = t := rfl

theorem analyze_market_eq (rlog : ℚ → ℚ) (prices : List ℚ)
    (h2 : ¬ prices.length < 2) :
    analyze_market rlog prices =
      if |prices.sum - 1| < 1/100 then none
      else if prices.sum < 99/100 then
        some (mkAnalysis rlog prices prices.sum |prices.sum - 1| .buy_all_yes (1 - prices.sum))
      else if prices.sum > 101/100 then
        some (mkAnalysis rlog prices prices.sum |prices.sum - 1| .buy_all_no (prices.sum - 1))
      else none := by
  rw [analyze_market, if_neg h2]

theorem event_classify_eq (yes_prices : List ℚ) (b : Bool) :
    event_classify yes_prices b =
      if |yes_prices.sum - 1| < 1/100 then .skipSmallDev
      else if yes_prices.sum > 3/2 ∨ yes_prices.sum < 1/2 then .dataQualityReject
      else if yes_prices.sum < 99/100 then .classified .buy_all_yes (1 - yes_prices.sum)
      else if yes_prices.sum > 101/100 then
        if b then .classified .buy_all_no (yes_prices.sum - 1) else .skipNoTokens
      else .skipMid := rfl

/-- C2 counterexample: `analyze_market` itself applies no 0.50/1.50
data-quality bound — on prices [0.1, 0.1, 0.1] (length 3, each in (0,1),
sum 0.30 < 0.50) it returns an affirmative-basket opportunity instead of
rejecting. -/
theorem analyzer_extreme_sum_counterexample :
    (analyze_market (fun _ => 0) [1/10, 1/10, 1/10]).map Analysis.atype
      = some OppType.buy_all_yes ∧
    ([1/10, 1/10, 1/10] : List ℚ).sum < 1/2 ∧
    (0 : ℚ) < 1/10 ∧ (1/10 : ℚ) < 1 := by
  refine ⟨?_, by norm_num, by norm_num, by norm_num⟩
  rw [analyze_market_eq _ _ (by norm_num)]
  norm_num
  exact ⟨_, ⟨by rw [abs_of_nonneg (by norm_num : (0:ℚ) ≤ 7/10)]; norm_num, rfl⟩, rfl⟩

/-- C2 (amended): for price vectors of length ≥ 3 with entries in (0,1),
`analyze_market` returns no opportunity iff 0.99 ≤ S ≤ 1.01 and
classifies affirmative-basket iff S < 0.99 and negative-basket iff
S > 1.01, with no 0.50/1.50 bound; the 0.50/1.50 data-quality rejection
is applied only by the event-level scan path (`event_classify`), where
affirmative-basket requires 0.50 ≤ S < 0.99 and negative-basket
1.01 < S ≤ 1.50 (given NO-token availability). -/
theorem analyzer_and_event_classification (rlog : ℚ → ℚ) (prices : List ℚ)
    (hlen : 3 ≤ prices.length) (hp : ∀ p ∈ prices, 0 < p ∧ p < 1) :
    (analyze_market rlog prices = none ↔
      99/100 ≤ prices.sum ∧ prices.sum ≤ 101/100) ∧
    ((analyze_market rlog prices).map Analysis.atype = some .buy_all_yes ↔
      prices.sum < 99/100) ∧
    ((analyze_market rlog prices).map Analysis.atype = some .buy_all_no ↔
      101/100 < prices.sum) ∧
    (event_classify prices true = .dataQualityReject ↔
      (3/2 < prices.sum ∨ prices.sum < 1/2)) ∧
    (event_classify prices true = .classified .buy_all_yes (1 - prices.sum) ↔
      (1/2 ≤ prices.sum ∧ prices.sum < 99/100)) ∧
    (event_classify prices true = .classified .buy_all_no (prices.sum - 1) ↔
      (101/100 < prices.sum ∧ prices.sum ≤ 3/2)) := by
  rw [analyze_market_eq rlog prices (by omega), event_classify_eq]
  set S := prices.sum with hSdef
  by_cases hdev : |S - 1| < 1/100
  · obtain ⟨hd1, hd2⟩ := abs_sub_lt_iff.mp hdev
    rw [if_pos hdev, if_pos hdev]
    exact ⟨iff_of_true rfl ⟨by linarith, by linarith⟩,
      iff_of_false (by simp) (by intro h; linarith),
      iff_of_false (by simp) (by intro h; linarith),
      iff_of_false (by simp) (by rintro (h | h) <;> linarith),
      iff_of_false (by simp) (by rintro ⟨h, h'⟩; linarith),
      iff_of_false (by simp) (by rintro ⟨h, h'⟩; linarith)⟩
  · have hdd := abs_sub_lt_iff.not.mp hdev
    push_neg at hdd
    rw [if_neg hdev, if_neg hdev]
    by_cases hlow : S < 99/100
    · rw [if_pos hlow]
      by_cases hhalf : S < 1/2
      · rw [if_pos (Or.inr hhalf)]
        exact ⟨iff_of_false (by simp) (by rintro ⟨h, h'⟩; linarith),
          iff_of_true (by simp [mkAnalysis_atype]) hlow,
          iff_of_false (by simp [mkAnalysis_atype]) (by intro h; linarith),
          iff_of_true rfl (Or.inr hhalf),
          iff_of_false (by simp) (by rintro ⟨h, h'⟩; linarith),
          iff_of_false (by simp) (by rintro ⟨h, h'⟩; linarith)⟩
      · push_neg at hhalf
        have hor : ¬ (S > 3/2 ∨ S < 1/2) := by push_neg; exact ⟨by linarith, by linarith⟩
        rw [if_neg hor, if_pos hlow]
        exact ⟨iff_of_false (by simp) (by rintro ⟨h, h'⟩; linarith),
          iff_of_true (by simp [mkAnalysis_atype]) hlow,
          iff_of_false (by simp [mkAnalysis_atype]) (by intro h; linarith),
          iff_of_false (by simp) (by rintro (h | h) <;> linarith),
          iff_of_true rfl ⟨hhalf, hlow⟩,
          iff_of_false (by simp) (by rintro ⟨h, h'⟩; linarith)⟩
    · push_neg at hlow
      rw [if_neg (not_lt.mpr hlow)]
      by_cases hhigh : S > 101/100
      · rw [if_pos hhigh]
        by_cases h32 : S > 3/2
        · rw [if_pos (Or.inl h32)]
          exact ⟨iff_of_false (by simp) (by rintro ⟨h, h'⟩; linarith),
            iff_of_false (by simp [mkAnalysis_atype]) (by intro h; linarith),
            iff_of_true (by simp [mkAnalysis_atype]) hhigh,
            iff_of_true rfl (Or.inl h32),
            iff_of_false (by simp) (by rintro ⟨h, h'⟩; linarith),
            iff_of_false (by simp) (by rintro ⟨h, h'⟩; linarith)⟩
        · push_neg at h32
          have hor : ¬ (S > 3/2 ∨ S < 1/2) := by push_neg; exact ⟨by linarith, by linarith⟩
          rw [if_neg hor, if_neg (not_lt.mpr hlow), if_pos hhigh, if_pos rfl]
          exact ⟨iff_of_false (by simp) (by rintro ⟨h, h'⟩; linarith),
            iff_of_false (by simp [mkAnalysis_atype]) (by intro h; linarith),
            iff_of_true (by simp [mkAnalysis_atype]) hhigh,
            iff_of_false (by simp) (by rintro (h | h) <;> linarith),
            iff_of_false (by simp) (by rintro ⟨h, h'⟩; linarith),
            iff_of_true rfl ⟨hhigh, h32⟩⟩
      · push_neg at hhigh
        rw [if_neg (not_lt.mpr hhigh)]
        have hor : ¬ (S > 3/2 ∨ S < 1/2) := by push_neg; exact ⟨by linarith, by linarith⟩
        rw [if_neg hor, if_neg (not_lt.mpr hlow), if_neg (not_lt.mpr hhigh)]
        exact ⟨iff_of_true rfl ⟨hlow, hhigh⟩,
          iff_of_false (by simp) (by intro h; linarith),
          iff_of_false (by simp) (by intro h; linarith),
          iff_of_false (by simp) (by rintro (h | h) <;> linarith),
          iff_of_false (by simp) (by rintro ⟨h, h'⟩; linarith),
          iff_of_false (by simp) (by rintro ⟨h, h'⟩; linarith)⟩

/-- Witness for C2 (amended) at prices [0.3, 0.3, 0.3] (sum 0.9). -/
theorem analyzer_and_event_classification_witness :
    (analyze_market (fun _ => 0) [3/10, 3/10, 3/10] = none ↔
      99/100 ≤ ([3/10, 3/10, 3/10] : List ℚ).sum ∧
        ([3/10, 3/10, 3/10] : List ℚ).sum ≤ 101/100) ∧
    ((analyze_market (fun _ => 0) [3/10, 3/10, 3/10]).map Analysis.atype
        = some .buy_all_yes ↔ ([3/10, 3/10, 3/10] : List ℚ).sum < 99/100) ∧
    ((analyze_market (fun _ => 0) [3/10, 3/10, 3/10]).map Analysis.atype
        = some .buy_all_no ↔ 101/100 < ([3/10, 3/10, 3/10] : List ℚ).sum) ∧
    (event_classify [3/10, 3/10, 3/10] true = .dataQualityReject ↔
      (3/2 < ([3/10, 3/10, 3/10] : List ℚ).sum ∨ ([3/10, 3/10, 3/10] : List ℚ).sum < 1/2)) ∧
    (event_classify [3/10, 3/10, 3/10] true
        = .classified .buy_all_yes (1 - ([3/10, 3/10, 3/10] : List ℚ).sum) ↔
      (1/2 ≤ ([3/10, 3/10, 3/10] : List ℚ).sum ∧ ([3/10, 3/10, 3/10] : List ℚ).sum < 99/100)) ∧
    (event_classify [3/10, 3/10, 3/10] true
        = .classified .buy_all_no (([3/10, 3/10, 3/10] : List ℚ).sum - 1) ↔
      (101/100 < ([3/10, 3/10, 3/10] : List ℚ).sum ∧ ([3/10, 3/10, 3/10] : List ℚ).sum ≤ 3/2)) :=
  analyzer_and_event_classification (fun _ => 0) [3/10, 3/10, 3/10] (by norm_num)
    (by intro p hp; simp [List.mem_cons] at hp; rcases hp with rfl | rfl | rfl <;> norm_num)

/-! ### The degenerate divergence diagnostic (C6) -/

theorem projDist_bounds (prices : List ℚ)
    (hp : ∀ p ∈ prices, 0 < p ∧ p < 1)
    (hne : prices ≠ [])
    (hn : prices.length ≤ 1000000000000) :
    ∀ x ∈ projDist prices, (1/1000000000000000 : ℚ) ≤ x ∧ 0 < x := by
  have hlb : ∀ x ∈ safePrices prices, (1/200 : ℚ) ≤ x := by
    intro x hx
    obtain ⟨p, hp', rfl⟩ := List.mem_map.mp hx
    exact le_max_right _ _
  have hub : ∀ x ∈ safePrices prices, x ≤ 1 := by
    intro x hx
    obtain ⟨p, hp', rfl⟩ := List.mem_map.mp hx
    exact max_le (le_of_lt (hp p hp').2) (by norm_num)
  have hlen : (safePrices prices).length = prices.length := List.length_map _ _
  have hs_ub : safeSum prices ≤ (prices.length : ℚ) := by
    have h := List.sum_le_card_nsmul (safePrices prices) 1 hub
    rw [hlen] at h
    simpa [nsmul_eq_mul] using h
  have hs_lb : (1/200 : ℚ) ≤ safeSum prices := by
    have h := List.card_nsmul_le_sum (safePrices prices) (1/200) hlb
    rw [hlen] at h
    have h1 : 1 ≤ prices.length := List.length_pos.mpr hne
    have h1q : (1 : ℚ) ≤ (prices.length : ℚ) := by exact_mod_cast h1
    have h2 : (prices.length : ℚ) * (1/200) ≤ safeSum prices := by
      simpa [nsmul_eq_mul] using h
    nlinarith
  have hs_pos : 0 < safeSum prices := lt_of_lt_of_le (by norm_num) hs_lb
  intro x hx
  obtain ⟨p, hps, rfl⟩ := List.mem_map.mp hx
  have hp200 : (1/200 : ℚ) ≤ p := hlb p hps
  refine ⟨?_, div_pos (lt_of_lt_of_le (by norm_num) hp200) hs_pos⟩
  rw [le_div_iff₀ hs_pos]
  have hcast : (prices.length : ℚ) ≤ 1000000000000 := by exact_mod_cast hn
  nlinarith

theorem zipWith_same_log_sum_zero (rlog : ℚ → ℚ) (hlog : rlog 1 = 0) :
    ∀ l : List ℚ, (∀ x ∈ l, (1/1000000000000000 : ℚ) ≤ x ∧ 0 < x) →
      (List.zipWith (fun pr pn => pr * rlog (pr / max pn (1/1000000000000000))) l l).sum = 0
  | [], _ => by simp
  | x :: l, h => by
      have hx := h x (List.mem_cons_self _ _)
      have hrec := zipWith_same_log_sum_zero rlog hlog l
        (fun y hy => h y (List.mem_cons_of_mem _ hy))
      rw [List.zipWith_cons_cons, List.sum_cons, hrec,
        max_eq_left hx.1, div_self (ne_of_gt hx.2), hlog]
      ring

theorem bregmanD_eq_zero (rlog : ℚ → ℚ) (prices : List ℚ) (hlog : rlog 1 = 0)
    (hp : ∀ p ∈ prices, 0 < p ∧ p < 1) (hne : prices ≠ [])
    (hn : prices.length ≤ 1000000000000) :
    bregmanD rlog prices = 0 := by
  rw [bregmanD, show pNorm prices = projDist prices from rfl,
    zipWith_same_log_sum_zero rlog hlog _ (projDist_bounds prices hp hne hn), abs_zero]

/-- C6: the divergence diagnostic compares the simplex projection with a
second distribution built by the identical formula (`pNorm = projDist`
definitionally), so on every analyzed price vector (entries in (0,1),
length within the regime where the 1e-15 floor is inert) the computed
divergence is 0, the guaranteed-profit floor `max(0, D - gap)` is 0,
and the captured fraction is 0. -/
theorem divergence_diagnostic_degenerate (rlog : ℚ → ℚ) (prices : List ℚ) (a : Analysis)
    (hlog : rlog 1 = 0)
    (hp : ∀ p ∈ prices, 0 < p ∧ p < 1)
    (hn : prices.length ≤ 1000000000000)
    (ha : analyze_market rlog prices = some a) :
    pNorm prices = projDist prices ∧
    a.bregman_D = 0 ∧ a.guaranteed_profit = 0 ∧ a.alpha_captured = 0 := by
  have h2 : ¬ prices.length < 2 := by
    intro hl
    rw [analyze_market, if_pos hl] at ha
    exact Option.noConfusion ha
  have hne : prices ≠ [] := by
    intro h
    rw [h] at h2
    simp at h2
  have hD := bregmanD_eq_zero rlog prices hlog hp hne hn
  have hgap := abs_nonneg ((List.zipWith (fun g d => g * d) (gradVec rlog prices)
    (List.zipWith (fun a b => a - b) (projDist prices)
      ((gradVec rlog prices).map fun g =>
        if g = (gradVec rlog prices).min?.getD 0 then (1 : ℚ) else 0))).sum)
  rw [analyze_market_eq rlog prices h2] at ha
  refine ⟨rfl, ?_⟩
  split_ifs at ha with hd1 hd2 hd3
  · injection ha with ha
    subst ha
    refine ⟨hD, ?_, ?_⟩
    · show max 0 (bregmanD rlog prices - fwGap rlog prices) = 0
      rw [hD]
      exact max_eq_left (by simpa [fwGap] using hgap)
    · show (if bregmanD rlog prices > 1/1000000 then
          min ((bregmanD rlog prices - fwGap rlog prices) / bregmanD rlog prices) 1 else 0) = 0
      rw [hD]
      norm_num
  · injection ha with ha
    subst ha
    refine ⟨hD, ?_, ?_⟩
    · show max 0 (bregmanD rlog prices - fwGap rlog prices) = 0
      rw [hD]
      exact max_eq_left (by simpa [fwGap] using hgap)
    · show (if bregmanD rlog prices > 1/1000000 then
          min ((bregmanD rlog prices - fwGap rlog prices) / bregmanD rlog prices) 1 else 0) = 0
      rw [hD]
      norm_num

/-- Witness for C6 at prices [0.1, 0.1, 0.1] with the concrete analysis
record the engine produces there (divergence 0, gap 2, floor 0,
captured fraction 0). -/
theorem divergence_diagnostic_degenerate_witness :
    pNorm [1/10, 1/10, 1/10] = projDist [1/10, 1/10, 1/10] ∧
    (⟨3, 3/10, 7/10, .buy_all_yes, 7/10, 0, 2, 0, 0⟩ : Analysis).bregman_D = 0 ∧
    (⟨3, 3/10, 7/10, .buy_all_yes, 7/10, 0, 2, 0, 0⟩ : Analysis).guaranteed_profit = 0 ∧
    (⟨3, 3/10, 7/10, .buy_all_yes, 7/10, 0, 2, 0, 0⟩ : Analysis).alpha_captured = 0 :=
  divergence_diagnostic_degenerate (fun _ => 0) [1/10, 1/10, 1/10]
    ⟨3, 3/10, 7/10, .buy_all_yes, 7/10, 0, 2, 0, 0⟩ rfl
    (by intro p hp; simp [List.mem_cons] at hp; rcases hp with rfl | rfl | rfl <;> norm_num)
    (by norm_num)
    (by rw [analyze_market_eq _ _ (by norm_num)]
        norm_num [abs_of_nonneg, mkAnalysis, bregmanD, fwGap, gradVec, projDist, pNorm,
          safePrices, safeSum, List.min?])

/-! ### The scan cycle: stable descending ranking, single dispatch (C9) -/

theorem rank_sorted (opps : List ScanOpp) :
    (rankOpportunities opps).Pairwise (fun a b => b.raw_profit ≤ a.raw_profit) := by
  have h := @List.sorted_mergeSort ScanOpp (fun a b => b.raw_profit ≤ a.raw_profit)
    (fun a b c hab hbc => by
      simp only [decide_eq_true_eq] at hab hbc ⊢
      exact le_trans hbc hab)
    (fun a b => by
      simp only [Bool.or_eq_true, decide_eq_true_eq]
      exact le_total _ _)
    opps
  exact h.imp fun hab => by simpa using hab

theorem rank_stable (opps : List ScanOpp) (a b : ScanOpp)
    (hab : a.raw_profit = b.raw_profit) (h : List.Sublist [a, b] opps) :
    List.Sublist [a, b] (rankOpportunities opps) :=
  List.pair_sublist_mergeSort
    (fun a b c hab' hbc' => by
      simp only [decide_eq_true_eq] at hab' hbc' ⊢
      exact le_trans hbc' hab')
    (fun a b => by
      simp only [Bool.or_eq_true, decide_eq_true_eq]
      exact le_total _ _)
    (by simp [hab]) h

theorem executeCycle_length_le_one (cfg : Config) (now : ℚ) (execRes : ScanOpp → TradeResult) :
    ∀ (l : List ScanOpp) (st : BotState), (executeCycle cfg now execRes st l).1.length ≤ 1
  | [], st => by simp [executeCycle]
  | o :: rest, st => by
      rw [executeCycle]
      simp only []
      split_ifs with h1 h2
      · exact executeCycle_length_le_one cfg now execRes rest st
      · simp
      · cases o.atype
        · simp
        · simp
        · exact executeCycle_length_le_one cfg now execRes rest _

theorem executeCycle_dispatch (cfg : Config) (now : ℚ) (execRes : ScanOpp → TradeResult) :
    ∀ (l : List ScanOpp) (st : BotState), (∀ o ∈ l, o.atype ≠ .sell_all_yes) →
      (executeCycle cfg now execRes st l).1 =
        match l.find? (fun o => o.exec_check.execute) with
        | none => []
        | some o => if (st.can_trade cfg now).1 then [o] else []
  | [], st, _ => by simp [executeCycle]
  | o :: rest, st, h => by
      rw [executeCycle]
      simp only []
      by_cases h1 : o.exec_check.execute = false
      · rw [if_pos h1, List.find?_cons_of_neg _ (by simp [h1])]
        exact executeCycle_dispatch cfg now execRes rest st
          (fun x hx => h x (List.mem_cons_of_mem _ hx))
      · have h1' : o.exec_check.execute = true := by
          revert h1; cases o.exec_check.execute <;> simp
        rw [if_neg h1, List.find?_cons_of_pos _ (by simp [h1'])]
        by_cases hc : (st.can_trade cfg now).1 = false
        · rw [if_pos hc]
          simp [hc]
        · have hc' : (st.can_trade cfg now).1 = true := by
            revert hc; cases (st.can_trade cfg now).1 <;> simp
          rw [if_neg hc]
          have hty := h o (List.mem_cons_self _ _)
          cases hta : o.atype
          · simp [hc']
          · simp [hc']
          · exact absurd hta hty

/-- C9: in a scan cycle the opportunity list is ranked by Python's
stable sort in strictly descending raw-profit order (ties keep their
original scan order); the execution loop dispatches at most one
execution per cycle — it attempts exactly the first gate-approved entry
of the ranked list, and only when the risk controller's admission check
permits. -/
theorem cycle_rank_and_single_dispatch (cfg : Config) (now : ℚ)
    (execRes : ScanOpp → TradeResult) (st : BotState) (opps : List ScanOpp)
    (hty : ∀ o ∈ opps, o.atype ≠ .sell_all_yes) :
    (rankOpportunities opps).Pairwise (fun a b => b.raw_profit ≤ a.raw_profit) ∧
    (∀ a b : ScanOpp, a.raw_profit = b.raw_profit → List.Sublist [a, b] opps →
      List.Sublist [a, b] (rankOpportunities opps)) ∧
    (executeCycle cfg now execRes st (rankOpportunities opps)).1.length ≤ 1 ∧
    (executeCycle cfg now execRes st (rankOpportunities opps)).1 =
      match (rankOpportunities opps).find? (fun o => o.exec_check.execute) with
      | none => []
      | some o => if (st.can_trade cfg now).1 then [o] else [] := by
  refine ⟨rank_sorted opps, fun a b hab hs => rank_stable opps a b hab hs,
    executeCycle_length_le_one cfg now execRes _ st, ?_⟩
  refine executeCycle_dispatch cfg now execRes _ st ?_
  intro o ho
  exact hty o (by simpa [rankOpportunities] using ho)

/-- Witness for C9: three concrete scan entries (two tied at raw profit
0.10 around a rejected 0.20 entry), an unhalted state, one dispatch. -/
theorem cycle_rank_and_single_dispatch_witness :
    (rankOpportunities [oppA, oppB, oppC]).Pairwise
      (fun a b => b.raw_profit ≤ a.raw_profit) ∧
    List.Sublist [oppA, oppC] (rankOpportunities [oppA, oppB, oppC]) ∧
    (executeCycle cfg0 1000 (fun _ => res0) stOk
      (rankOpportunities [oppA, oppB, oppC])).1.length ≤ 1 ∧
    (executeCycle cfg0 1000 (fun _ => res0) stOk
      (rankOpportunities [oppA, oppB, oppC])).1 =
      match (rankOpportunities [oppA, oppB, oppC]).find? (fun o => o.exec_check.execute) with
      | none => []
      | some o => if (stOk.can_trade cfg0 1000).1 then [o] else [] := by
  have h := cycle_rank_and_single_dispatch cfg0 1000 (fun _ => res0) stOk [oppA, oppB, oppC]
    (by intro o ho
        simp [List.mem_cons] at ho
        rcases ho with rfl | rfl | rfl <;> simp [oppA, oppB, oppC])
  exact ⟨h.1, h.2.1 oppA oppC rfl
    (List.Sublist.cons₂ oppA (List.Sublist.cons oppB
      (List.Sublist.cons₂ oppC List.Sublist.slnil))),
    h.2.2.1, h.2.2.2⟩

end Poly2
